import Mathlib

/-!
# caddy-reauth: the gitlab backend and the rule block reader

A shallow embedding of `backends/gitlab/auth.go` (the `Gitlab` backend, its
`constructor`, `noRedirectsPolicy` and `Authenticate`) and of `config.go`
(`Rule`, `parseBlock`), followed by the properties proved about them.

Go strings are modelled as Lean strings (sequences of characters), Go errors as
their message text, and a `(value, error)` result as `Except` or as a pair with
an optional error.  What the code reaches outside the repository is passed in:
the parsers `constructor` calls in `Parsers`, `url.Parse` and the network behind
a client in `Net`.  A model of `net/url` is given to evaluate concrete inputs.
-/

namespace Reauth

/-! ## Strings -/

/-- Go error values, represented by their message. -/
abbrev Error := String

/-- Go `strings.HasSuffix`:
`len(s) >= len(suffix) && s[len(s)-len(suffix):] == suffix`. -/
def HasSuffix (s suffix : String) : Bool :=
  decide (suffix.data.length ≤ s.data.length) &&
    decide (s.data.drop (s.data.length - suffix.data.length) = suffix.data)

/-- The message `msg` names `part`: `part` occurs in it as a contiguous piece. -/
def Names (msg part : String) : Prop :=
  part.data <:+: msg.data

/-! ## The gitlab backend: data -/

/-- Go `net/url.URL`, with the components kept in their escaped (as written)
form. -/
structure URL where
  Scheme : String := ""
  Opaque : String := ""
  User : Option String := none
  Host : String := ""
  Path : String := ""
  OmitHost : Bool := false
  ForceQuery : Bool := false
  RawQuery : String := ""
  Fragment : String := ""
deriving DecidableEq, Repr

/-! ## `net/url`: parsing, resolving and printing references

The functions below follow Go's `net/url`.  Components are kept as written:
percent-decoding and the validation of the characters of a host or of a
userinfo are not modelled, apart from the check that every `%` is followed by
two hexadecimal digits. -/

namespace Url

/-- Go `strings.Cut` with a one-character separator. -/
def cut (sep : Char) : List Char → List Char × List Char × Bool
  | [] => ([], [], false)
  | c :: cs =>
    if c = sep then ([], cs, true)
    else
      let r := cut sep cs
      (c :: r.1, r.2.1, r.2.2)

/-- Go `strings.Split(s, "/")`. -/
def splitSlash : List Char → List (List Char)
  | [] => [[]]
  | c :: cs =>
    if c = '/' then [] :: splitSlash cs
    else
      match splitSlash cs with
      | [] => [[c]]
      | s :: ss => (c :: s) :: ss

/-- The prefix `s[:strings.LastIndex(s, sep)+1]`: everything up to and
including the last separator, empty when there is none. -/
def throughLast (sep : Char) (s : List Char) : List Char :=
  (s.reverse.dropWhile (fun c => c ≠ sep)).reverse

/-- The suffix `s[strings.LastIndex(s, sep)+1:]`, when the separator occurs. -/
def afterLast (sep : Char) (s : List Char) : Option (List Char) :=
  if s.contains sep then some (s.reverse.takeWhile (fun c => c ≠ sep)).reverse else none

/-- The prefix `s[:strings.LastIndex(s, sep)]`, when the separator occurs. -/
def beforeLast (sep : Char) (s : List Char) : Option (List Char) :=
  if s.contains sep then some (throughLast sep s).dropLast else none

/-- Go `stringContainsCTLByte`. -/
def stringContainsCTLByte (s : List Char) : Bool :=
  s.any (fun c => c.toNat < 32 || c.toNat = 127)

/-- The loop of Go `getScheme`, at index `i` with `rest = rawURL[i:]`. -/
def getSchemeAux (rawURL : List Char) : Nat → List Char → Except Error (List Char × List Char)
  | _, [] => .ok ([], rawURL)
  | i, c :: cs =>
    if c.isAlpha then getSchemeAux rawURL (i + 1) cs
    else if c.isDigit || c = '+' || c = '-' || c = '.' then
      if i = 0 then .ok ([], rawURL) else getSchemeAux rawURL (i + 1) cs
    else if c = ':' then
      if i = 0 then .error "missing protocol scheme" else .ok (rawURL.take i, cs)
    else .ok ([], rawURL)

/-- Go `getScheme`: splits off a leading `scheme:`. -/
def getScheme (rawURL : List Char) : Except Error (List Char × List Char) :=
  getSchemeAux rawURL 0 rawURL

/-- Whether a character is a hexadecimal digit (Go `ishex`). -/
def ishex (c : Char) : Bool :=
  c.isDigit || ('a' ≤ c && c ≤ 'f') || ('A' ≤ c && c ≤ 'F')

/-- The first pass of Go `unescape`: every `%` is followed by two hexadecimal
digits. -/
def validEscapes : List Char → Bool
  | [] => true
  | c :: cs =>
    if c = '%' then
      match cs with
      | a :: b :: rest => ishex a && ishex b && validEscapes rest
      | _ => false
    else validEscapes cs

/-- Go `validOptionalPort`: empty, or a colon followed by digits. -/
def validOptionalPort : List Char → Bool
  | [] => true
  | c :: cs => c = ':' && cs.all Char.isDigit

/-- Go `parseHost`. -/
def parseHost (host : List Char) : Except Error (List Char) :=
  if host.head? = some '[' then
    match afterLast ']' host with
    | none => .error "missing ']' in host"
    | some colonPort =>
      if !validOptionalPort colonPort then .error "invalid port after host"
      else if !validEscapes host then .error "invalid URL escape"
      else .ok host
  else
    match afterLast ':' host with
    | some port =>
      if !validOptionalPort (':' :: port) then .error "invalid port after host"
      else if !validEscapes host then .error "invalid URL escape"
      else .ok host
    | none => if !validEscapes host then .error "invalid URL escape" else .ok host

/-- Go `parseAuthority`: `[userinfo@]host`. -/
def parseAuthority (authority : List Char) : Except Error (Option String × String) :=
  match beforeLast '@' authority, afterLast '@' authority with
  | some userinfo, some host =>
    match parseHost host with
    | .error e => .error e
    | .ok host =>
      if !validEscapes userinfo then .error "invalid URL escape"
      else .ok (some (String.mk userinfo), String.mk host)
  | _, _ =>
    match parseHost authority with
    | .error e => .error e
    | .ok host => .ok (none, String.mk host)

/-- The second half of Go `parse(rawURL, false)`: what follows the scheme,
with the query already split off, is an opaque part, or an authority and a
path, or a path. -/
def parseRest (scheme rest : List Char) (forceQuery : Bool) (rawQuery : List Char) :
    Except Error URL :=
  let url : URL :=
    { Scheme := String.mk scheme, ForceQuery := forceQuery, RawQuery := String.mk rawQuery }
  if rest.head? ≠ some '/' ∧ scheme ≠ [] then
    .ok { url with Opaque := String.mk rest }
  else if rest.head? ≠ some '/' ∧ (cut '/' rest).1.contains ':' then
    .error "first path segment in URL cannot contain colon"
  else if (scheme ≠ [] ∨ (rest.take 3 ≠ ['/', '/', '/'])) ∧ rest.take 2 = ['/', '/'] then
    let authority := rest.drop 2
    let rest := authority.dropWhile (fun c => c ≠ '/')
    let authority := authority.takeWhile (fun c => c ≠ '/')
    match parseAuthority authority with
    | .error e => .error e
    | .ok (user, host) =>
      if !validEscapes rest then .error "invalid URL escape"
      else .ok { url with User := user, Host := host, Path := String.mk rest }
  else if !validEscapes rest then .error "invalid URL escape"
  else
    .ok { url with OmitHost := decide (scheme ≠ [] ∧ rest.head? = some '/'),
                   Path := String.mk rest }

/-- Go `parse(rawURL, false)`: a reference without its fragment. -/
def parse (rawURL : List Char) : Except Error URL :=
  if stringContainsCTLByte rawURL then .error "net/url: invalid control character in URL"
  else if rawURL = ['*'] then .ok { Path := "*" }
  else
    match getScheme rawURL with
    | .error e => .error e
    | .ok (scheme, rest) =>
      let scheme := scheme.map Char.toLower
      if rest.getLast? = some '?' && rest.count '?' = 1 then
        parseRest scheme rest.dropLast true []
      else
        let r := cut '?' rest
        parseRest scheme r.1 false r.2.1

/-- Go `url.Parse`: the fragment is cut off, the rest is parsed. -/
def Parse (rawURL : String) : Except Error URL :=
  let r := cut '#' rawURL.data
  match parse r.1 with
  | .error e => .error ("parse \"" ++ String.mk r.1 ++ "\": " ++ e)
  | .ok url =>
    if r.2.1 = [] then .ok url
    else if !validEscapes r.2.1 then
      .error ("parse \"" ++ rawURL ++ "\": invalid URL escape")
    else .ok { url with Fragment := String.mk r.2.1 }

/-- Go `resolvePath`: the path `ref` resolved against the path `base`, with
`.` and `..` elements removed. -/
def resolvePath (base ref : List Char) : List Char :=
  let full : List Char :=
    match ref with
    | [] => base
    | c :: _ => if c ≠ '/' then throughLast '/' base ++ ref else ref
  if full = [] then []
  else
    let src := splitSlash full
    let dst : List (List Char) :=
      src.foldl (fun dst elem =>
        if elem = ['.'] then dst
        else if elem = ['.', '.'] then dst.dropLast
        else dst ++ [elem]) []
    let dst : List (List Char) :=
      if src.getLast? = some ['.'] ∨ src.getLast? = some ['.', '.'] then dst ++ [[]] else dst
    let joined := List.intercalate ['/'] dst
    '/' :: (if joined.head? = some '/' then joined.drop 1 else joined)

end Url

/-- Go `(*URL).ResolveReference`. -/
def URL.ResolveReference (u ref : URL) : URL :=
  let url : URL := if ref.Scheme = "" then { ref with Scheme := u.Scheme } else ref
  if ref.Scheme ≠ "" ∨ ref.Host ≠ "" ∨ ref.User ≠ none then
    { url with Path := String.mk (Url.resolvePath ref.Path.data []) }
  else if ref.Opaque ≠ "" then
    { url with User := none, Host := "", Path := "" }
  else
    let url : URL :=
      if ref.Path = "" ∧ ref.ForceQuery = false ∧ ref.RawQuery = "" then
        if ref.Fragment = "" then { url with RawQuery := u.RawQuery, Fragment := u.Fragment }
        else { url with RawQuery := u.RawQuery }
      else url
    if ref.Path = "" ∧ u.Opaque ≠ "" then
      { url with Opaque := u.Opaque, User := none, Host := "", Path := "" }
    else
      { url with Host := u.Host, User := u.User,
                 Path := String.mk (Url.resolvePath u.Path.data ref.Path.data) }

/-- Go `(*URL).String`: the reference written out again. -/
def URL.text (u : URL) : String :=
  let buf : String := if u.Scheme ≠ "" then u.Scheme ++ ":" else ""
  let buf : String :=
    if u.Opaque ≠ "" then buf ++ u.Opaque
    else
      let buf : String :=
        if u.Scheme ≠ "" ∨ u.Host ≠ "" ∨ u.User ≠ none then
          if u.OmitHost = true ∧ u.Host = "" ∧ u.User = none then buf
          else
            let buf := if u.Host ≠ "" ∨ u.Path ≠ "" ∨ u.User ≠ none then buf ++ "//" else buf
            let buf := match u.User with
              | some ui => buf ++ ui ++ "@"
              | none => buf
            buf ++ u.Host
        else buf
      let buf : String :=
        if u.Path ≠ "" ∧ u.Path.data.head? ≠ some '/' ∧ u.Host ≠ "" then buf ++ "/" else buf
      let buf : String :=
        if buf = "" ∧ (Url.cut '/' u.Path.data).1.contains ':' then buf ++ "./" else buf
      buf ++ u.Path
  let buf : String :=
    if u.ForceQuery = true ∨ u.RawQuery ≠ "" then buf ++ "?" ++ u.RawQuery else buf
  if u.Fragment ≠ "" then buf ++ "#" ++ u.Fragment else buf

/-- Backend name. -/
def Backend : String := "gitlab"

/-- DefaultTimeout for sub requests: `time.Minute`, in nanoseconds. -/
def DefaultTimeout : Int := 60 * 1000000000

/-- DefaultUsername to use when talking to gitlab. -/
def DefaultUsername : String := "gitlab-ci-token"

/-- The `Gitlab` backend. -/
structure Gitlab where
  url : URL
  timeout : Int
  username : String
  insecureSkipVerify : Bool
deriving DecidableEq, Repr

/-- Result of `backend.ParseOptions`: a Go `map[string]string`. -/
abbrev Options := String → Option String

/-- Go `strconv.ParseBool`. -/
def ParseBool (str : String) : Except Error Bool :=
  if str = "1" ∨ str = "t" ∨ str = "T" ∨ str = "true" ∨ str = "TRUE" ∨ str = "True" then
    .ok true
  else if str = "0" ∨ str = "f" ∨ str = "F" ∨ str = "false" ∨ str = "FALSE" ∨ str = "False" then
    .ok false
  else
    .error ("strconv.ParseBool: parsing \"" ++ str ++ "\": invalid syntax")

/-- The parsers `constructor` calls outside this file: `backend.ParseOptions`,
`url.Parse` and `time.ParseDuration`. -/
structure Parsers where
  ParseOptions : String → Except Error Options
  urlParse : String → Except Error URL
  ParseDuration : String → Except Error Int

/-- The function `constructor` of the gitlab backend. -/
def constructor (p : Parsers) (config : String) : Except Error Gitlab :=
  match p.ParseOptions config with
  | .error err => .error err
  | .ok options =>
    match options "url" with
    | none => .error "url is a required parameter"
    | some s =>
      match p.urlParse s with
      | .error err => .error ("unable to parse url " ++ s ++ ": " ++ err)
      | .ok u =>
        let us : Gitlab :=
          { url := u, username := DefaultUsername, timeout := DefaultTimeout,
            insecureSkipVerify := false }
        let us : Gitlab :=
          match options "username" with
          | some s => { us with username := s }
          | none => us
        let afterTimeout : Except Error Gitlab :=
          match options "timeout" with
          | some s =>
            match p.ParseDuration s with
            | .error err => .error ("unable to parse timeout " ++ s ++ ": " ++ err)
            | .ok d => .ok { us with timeout := d }
          | none => .ok us
        match afterTimeout with
        | .error e => .error e
        | .ok us =>
          match options "insecure" with
          | some s =>
            match ParseBool s with
            | .error err => .error ("unable to parse insecure " ++ s ++ ": " ++ err)
            | .ok b => .ok { us with insecureSkipVerify := b }
          | none => .ok us

/-- The subject normalisation at the head of `Authenticate`:
`if !strings.HasSuffix(un, ".git") { un += ".git" }`. -/
def normalize (un : String) : String :=
  if !HasSuffix un ".git" then un ++ ".git" else un

/-! ## `net/http`: requests, clients and the redirect loop -/

/-- The inbound `*http.Request` as far as `Authenticate` reads it: the result
of `r.BasicAuth()`, absent when the request carries no parseable Basic-Auth
header. -/
structure InRequest where
  BasicAuth : Option (String × String)
deriving DecidableEq, Repr

/-- An outbound `*http.Request`: method, target, and the credentials put on it
by `SetBasicAuth`. -/
structure Request where
  Method : String
  URL : URL
  BasicAuth : Option (String × String) := none
deriving DecidableEq, Repr

/-- Go `(*Request).SetBasicAuth`. -/
def Request.SetBasicAuth (req : Request) (username password : String) : Request :=
  { req with BasicAuth := some (username, password) }

/-- Go `tls.Config`, as far as the backend sets it. -/
structure TLSConfig where
  InsecureSkipVerify : Bool
deriving DecidableEq, Repr

/-- Go `http.Transport`, as far as the backend sets it. -/
structure Transport where
  TLSClientConfig : Option TLSConfig
deriving DecidableEq, Repr

/-- Go `http.Client`; an absent `CheckRedirect` or `Transport` is the nil
field. -/
structure Client where
  Timeout : Int
  CheckRedirect : Option (Request → List Request → Option Error)
  Transport : Option Transport

/-- Whether a client skips the validation of the server certificate. -/
def Client.skipsVerify (c : Client) : Bool :=
  match c.Transport with
  | some t =>
    match t.TLSClientConfig with
    | some cfg => cfg.InsecureSkipVerify
    | none => false
  | none => false

/-- What the verification target, reached through the transport of a client,
answers to one request: a response the client hands back as it is, a redirect
response naming the request of the next hop, or a failure of the transport
(connection refused, DNS, timeout, TLS handshake). -/
inductive RoundTrip where
  | response (StatusCode : Nat)
  | redirect (StatusCode : Nat) (next : Request)
  | failure (err : Error)
deriving DecidableEq, Repr

/-- What `Authenticate` reaches outside the repository: `url.Parse` and the
network behind the transport of a client. -/
structure Net where
  urlParse : String → Except Error URL
  roundTrip : Client → Request → RoundTrip

/-- Go `(*URL).Parse`: parse `ref`, then resolve it against the receiver. -/
def URL.Parse (net : Net) (u : URL) (ref : String) : Except Error URL :=
  match net.urlParse ref with
  | .error err => .error err
  | .ok refURL => .ok (u.ResolveReference refURL)

/-- Go `removeEmptyPort`: a host that ends with a colon loses it. -/
def removeEmptyPort (host : String) : String :=
  if host.data.getLast? = some ':' then String.mk host.data.dropLast else host

/-- Go `http.NewRequest(method, url, nil)`: fails when `url` does not parse.
(The check of the method is left out: the backend passes the literal `GET`.) -/
def NewRequest (net : Net) (method url : String) : Except Error Request :=
  match net.urlParse url with
  | .error err => .error err
  | .ok u => .ok { Method := method, URL := { u with Host := removeEmptyPort u.Host } }

/-- Go `defaultCheckRedirect`, used by a client without a policy. -/
def defaultCheckRedirect (_req : Request) (via : List Request) : Option Error :=
  if 10 ≤ via.length then some "stopped after 10 redirects" else none

/-- Go `(*Client).checkRedirect`. -/
def Client.checkRedirect (c : Client) (req : Request) (via : List Request) : Option Error :=
  match c.CheckRedirect with
  | some fn => fn req via
  | none => defaultCheckRedirect req via

/-- Go `urlErrorOp`: the method with its first letter kept and the rest in
lower case. -/
def urlErrorOp (method : String) : String :=
  if method = "" then "Get"
  else String.mk (method.data.take 1 ++ (method.data.drop 1).map Char.toLower)

/-- Go `*url.Error` as `uerr` in `(*Client).do` builds it. -/
def uerr (method url : String) (err : Error) : Error :=
  urlErrorOp method ++ " \"" ++ url ++ "\": " ++ err

/-- Result of `(*Client).Do`: a response with a nil error, or a non-nil error
(with the last response when the redirect policy refused). -/
inductive DoResult where
  | response (StatusCode : Nat)
  | failure (err : Error) (last : Option Nat)
deriving DecidableEq, Repr

/-- Go `(*Client).do`: send `req`; on a redirect ask the policy, and follow to
the next hop only when it returns nil.  `via` are the requests already made.
The second component lists the requests that were sent, in order.  The loop
has no bound of its own, so it is run with fuel: `none` when it runs out. -/
def Client.doLoop (net : Net) (c : Client) :
    Nat → Request → List Request → Option (DoResult × List Request)
  | 0, _, _ => none
  | fuel + 1, req, via =>
    match net.roundTrip c req with
    | .failure err => some (.failure (uerr req.Method req.URL.text err) none, [req])
    | .response status => some (.response status, [req])
    | .redirect status next =>
      match c.checkRedirect next (via ++ [req]) with
      | some err => some (.failure (uerr req.Method next.URL.text err) (some status), [req])
      | none =>
        match Client.doLoop net c fuel next (via ++ [req]) with
        | none => none
        | some (res, sent) => some (res, req :: sent)

/-- Go `(*Client).Do`. -/
def Client.Do (net : Net) (fuel : Nat) (c : Client) (req : Request) :
    Option (DoResult × List Request) :=
  Client.doLoop net c fuel req []

/-! ## The gitlab backend: `Authenticate` -/

/-- The function `noRedirectsPolicy`. -/
def noRedirectsPolicy (_req : Request) (_via : List Request) : Option Error :=
  some "follow redirects disabled"

/-- The client `Authenticate` builds for the resolved target `repo`
(`c := &http.Client...` and the `https` branch that follows it). -/
def buildClient (h : Gitlab) (repo : URL) : Client :=
  let c : Client :=
    { Timeout := h.timeout, CheckRedirect := some noRedirectsPolicy, Transport := none }
  if repo.Scheme = "https" ∧ h.insecureSkipVerify = true then
    { c with Transport := some { TLSClientConfig := some { InsecureSkipVerify := true } } }
  else c

/-- What a call of `Authenticate` returns, `(authenticated, err)`, together
with the outbound requests it sent, in order. -/
structure Outcome where
  authenticated : Bool
  err : Option Error
  sent : List Request
deriving DecidableEq, Repr

/-- The method `Gitlab.Authenticate`.  The result is `none` only when the
redirect loop of the client runs out of fuel. -/
def Authenticate (net : Net) (fuel : Nat) (h : Gitlab) (r : InRequest) : Option Outcome :=
  match r.BasicAuth with
  | none => some { authenticated := false, err := none, sent := [] }
  | some (un, pw) =>
    let un := normalize un
    match h.url.Parse net un with
    | .error _ => some { authenticated := false, err := none, sent := [] }
    | .ok repo =>
      let c := buildClient h repo
      match NewRequest net "GET" repo.text with
      | .error err => some { authenticated := false, err := some err, sent := [] }
      | .ok req =>
        let req := req.SetBasicAuth h.username pw
        match c.Do net fuel req with
        | none => none
        | some (.failure err _, sent) =>
          some { authenticated := false, err := some err, sent := sent }
        | some (.response status, sent) =>
          if status ≠ 200 then some { authenticated := false, err := none, sent := sent }
          else some { authenticated := true, err := none, sent := sent }

/-! ## `config.go`: rules and the block reader -/

/-- The type `Rule`, over the type `β` of the values that implement
`backend.Backend`. -/
structure Rule (β : Type) where
  path : String := ""
  exceptions : List String := []
  backends : List β := []
deriving DecidableEq, Repr

/-- One directive of a configuration block: the tokens of one line, the first
of which names the directive. -/
structure Directive where
  name : String
  args : List String
deriving DecidableEq, Repr

/-- The `*caddy.Controller` while it reads one line of a block: the token
under the cursor and the tokens left on the line after it. -/
structure Controller where
  val : String
  rest : List String
deriving DecidableEq, Repr

/-- The controller after a `NextBlock` that returned true: the cursor is on
the first token of the next line, the name of the directive `d`. -/
def Controller.enter (d : Directive) : Controller :=
  { val := d.name, rest := d.args }

/-- Dispenser `NextArg`: loads the next token when it is on the same line. -/
def Controller.NextArg (c : Controller) : Bool × Controller :=
  match c.rest with
  | [] => (false, c)
  | a :: as => (true, { val := a, rest := as })

/-- Dispenser `Val`. -/
def Controller.Val (c : Controller) : String := c.val

/-- Dispenser `RemainingArgs`: all the tokens left on the line, the cursor
ending on the last of them. -/
def Controller.RemainingArgs (c : Controller) : List String × Controller :=
  (c.rest, { val := c.rest.getLast?.getD c.val, rest := [] })

/-- Dispenser `ArgErr`, without the file and line it is prefixed with. -/
def Controller.ArgErr (c : Controller) : Error :=
  if c.Val = "\x7b" then "Unexpected token \x27\x7b\x27, expecting argument"
  else "Wrong argument count or unexpected line ending after \x27" ++ c.Val ++ "\x27"

/-- The registry as `parseBlock` reads it: `backend.Lookup`, which gives the
constructor registered under a name or an error. -/
abbrev Lookup (β : Type) := String → Except Error (String → Except Error β)

/-- The checks of `parseBlock` after its loop. -/
def finishBlock {β : Type} (r : Rule β) : Rule β × Option Error :=
  if r.path = "" then (r, some "path is a required parameter")
  else if r.backends.length = 0 then (r, some "at least one backend required")
  else (r, none)

/-- The loop `for c.NextBlock()` of `parseBlock` and the checks after it, by
recursion on the lines of the block that are still to be read.  The result is
the pair `(Rule, error)` the Go function returns; the position `(file:line)`
at the end of its messages is left out. -/
def parseBlockLoop {β : Type} (lookup : Lookup β) :
    List Directive → Rule β → Rule β × Option Error
  | [], r => finishBlock r
  | d :: block, r =>
    let c := Controller.enter d
    if c.Val = "path" then
      -- Path expects just one string argument and only one iteration
      match c.NextArg with
      | (false, c) => (r, some c.ArgErr)
      | (true, c) =>
        if r.path.length ≠ 0 then (r, some c.ArgErr)
        else
          let r := { r with path := c.Val }
          match c.NextArg with
          | (true, c) => (r, some c.ArgErr)
          | (false, _) => parseBlockLoop lookup block r
    else if c.Val = "except" then
      -- Except can be specified multiple times with one string argument
      match c.NextArg with
      | (false, c) => (r, some c.ArgErr)
      | (true, c) =>
        let r := { r with exceptions := r.exceptions ++ [c.Val] }
        match c.NextArg with
        | (true, c) => (r, some c.ArgErr)
        | (false, _) => parseBlockLoop lookup block r
    else
      -- Handle backends, which all have one argument after the plugin name
      let name := c.Val
      match c.RemainingArgs.1 with
      | [config] =>
        match lookup name with
        | .error err => (r, some (err ++ " for " ++ name))
        | .ok f =>
          match f config with
          | .error err => (r, some (err ++ " for " ++ name))
          | .ok b => parseBlockLoop lookup block { r with backends := r.backends ++ [b] }
      | args =>
        (r, some ("wrong number of arguments for " ++ name ++ ": [" ++
          " ".intercalate args ++ "]"))

/-- The function `parseBlock`, on the directives of the block the controller
stands before. -/
def parseBlock {β : Type} (lookup : Lookup β) (block : List Directive) :
    Rule β × Option Error :=
  parseBlockLoop lookup block { backends := [] }

/-! ## Specification vocabulary and example data -/

/-- The option `key` is present with a value its parser rejects. -/
def Malformed (p : Parsers) (options : Options) (key s : String) : Prop :=
  options key = some s ∧
    ((key = "url" ∧ ∃ e, p.urlParse s = .error e) ∨
     (key = "timeout" ∧ ∃ e, p.ParseDuration s = .error e) ∨
     (key = "insecure" ∧ ∃ e, ParseBool s = .error e))

/-- The outcome of `Authenticate` once the outbound request `out` was built and
sent, read off the answer of the verification target. -/
def outcomeOf (out : Request) : RoundTrip → Outcome
  | .failure err =>
    { authenticated := false, err := some (uerr out.Method out.URL.text err), sent := [out] }
  | .response status =>
    { authenticated := decide (status = 200), err := none, sent := [out] }
  | .redirect _ next =>
    { authenticated := false,
      err := some (uerr out.Method next.URL.text "follow redirects disabled"), sent := [out] }

/-- The arguments of the `except` directives of a block, in the order they are
written. -/
def exceptArgs : List Directive → List String
  | [] => []
  | d :: block => if d.name = "except" then d.args ++ exceptArgs block else exceptArgs block

/-- Parsers for the example below: the options of `url=https://git.example.com/`,
the `net/url` model as `url.Parse`, and a `time.ParseDuration` that knows `1m`. -/
def exampleParsers : Parsers where
  ParseOptions := fun config =>
    if config = "url=https://git.example.com/" then
      .ok (fun key => if key = "url" then some "https://git.example.com/" else none)
    else .error "unsupported"
  urlParse := Url.Parse
  ParseDuration := fun s => if s = "1m" then .ok DefaultTimeout else .error "time: invalid duration"

/-- The backend `constructor` builds from `url=https://git.example.com/`. -/
def exampleGitlab : Gitlab :=
  { url := { Scheme := "https", Host := "git.example.com", Path := "/" },
    timeout := DefaultTimeout, username := DefaultUsername, insecureSkipVerify := false }

/-- A network for the examples: `url.Parse` is the `net/url` model; the host
`git.example.com` answers 200 to the secret `abc123` and 401 otherwise, moves
`/moved.git` to another place, and fails to connect for `/down.git`; every
other host answers 200 to everything. -/
def exampleNet : Net where
  urlParse := Url.Parse
  roundTrip := fun _ req =>
    if req.URL.Host = "git.example.com" then
      if req.URL.Path = "/moved.git" then
        .redirect 302 { req with URL := { req.URL with Path := "/elsewhere.git" } }
      else if req.URL.Path = "/down.git" then .failure "dial tcp: connection refused"
      else if req.BasicAuth.map Prod.snd = some "abc123" then .response 200
      else .response 401
    else .response 200

/-- A registry for the examples: the name `basic` is registered, with a
constructor that keeps its option string as the backend. -/
def exampleLookup : Lookup String := fun name =>
  if name = "basic" then .ok (fun config => .ok config)
  else .error ("backend not found: " ++ name)

/-! ## Properties of the normalisation -/

/-- A string to which `suffix` was appended ends with `suffix`. -/
theorem HasSuffix_append (s suffix : String) : HasSuffix (s ++ suffix) suffix = true := by
  simp [HasSuffix, String.data_append]

/-- C4: the normalisation of the subject in `Authenticate` is idempotent; it
leaves a subject that ends with `.git` unchanged and appends `.git` to every
other subject, so its result always ends with `.git`; `org/repo` becomes
`org/repo.git` and `org/repo.git` stays as it is. -/
theorem normalize_idempotent :
    (∀ s : String, normalize (normalize s) = normalize s) ∧
    (∀ s : String, normalize s = if HasSuffix s ".git" = true then s else s ++ ".git") ∧
    (∀ s : String, HasSuffix (normalize s) ".git" = true) ∧
    normalize "org/repo" = "org/repo.git" ∧
    normalize "org/repo.git" = "org/repo.git" := by
  have ends : ∀ s : String, HasSuffix (normalize s) ".git" = true := by
    intro s
    unfold normalize
    by_cases h : HasSuffix s ".git" = true
    · simp [h]
    · simp [h, HasSuffix_append]
  refine ⟨?_, ?_, ends, ?_, ?_⟩
  · intro s
    have h := ends s
    generalize normalize s = t at h
    simp [normalize, h]
  · intro s
    unfold normalize
    by_cases h : HasSuffix s ".git" = true <;> simp [h]
  · decide
  · decide

/-! ## Properties of `constructor` -/

/-- A message built around `part` names it. -/
theorem Names_mid (a part b : String) : Names (a ++ part ++ b) part :=
  ⟨a.data, b.data, by simp [String.data_append]⟩

/-- A message that names `part` still names it after more text is appended. -/
theorem Names_append_right {msg part : String} (h : Names msg part) (b : String) :
    Names (msg ++ b) part := by
  obtain ⟨s, t, hst⟩ := h
  exact ⟨s, t ++ b.data, by simp [String.data_append, ← hst]⟩

/-- How `constructor` ends on the options `backend.ParseOptions` produced, case
by case. -/
theorem constructor_cases (p : Parsers) (config : String) (options : Options)
    (hopt : p.ParseOptions config = .ok options) :
    (options "url" = none ∧
      constructor p config = .error "url is a required parameter") ∨
    (∃ s err, options "url" = some s ∧ p.urlParse s = .error err ∧
      constructor p config = .error ("unable to parse url " ++ s ++ ": " ++ err)) ∨
    (∃ s u t err, options "url" = some s ∧ p.urlParse s = .ok u ∧
      options "timeout" = some t ∧ p.ParseDuration t = .error err ∧
      constructor p config = .error ("unable to parse timeout " ++ t ++ ": " ++ err)) ∨
    (∃ s u b err, options "url" = some s ∧ p.urlParse s = .ok u ∧
      (∀ t, options "timeout" = some t → ∃ d, p.ParseDuration t = .ok d) ∧
      options "insecure" = some b ∧ ParseBool b = .error err ∧
      constructor p config = .error ("unable to parse insecure " ++ b ++ ": " ++ err)) ∨
    (∃ s u g, options "url" = some s ∧ p.urlParse s = .ok u ∧
      (∀ t, options "timeout" = some t → ∃ d, p.ParseDuration t = .ok d) ∧
      (∀ b, options "insecure" = some b → ∃ v, ParseBool b = .ok v) ∧
      constructor p config = .ok g) := by
  cases hu : options "url" with
  | none => left; simp [constructor, hopt, hu]
  | some s =>
    right
    cases hp : p.urlParse s with
    | error err => left; exact ⟨s, err, rfl, hp, by simp [constructor, hopt, hu, hp]⟩
    | ok u =>
      right
      cases ht : options "timeout" with
      | some t =>
        cases hd : p.ParseDuration t with
        | error err =>
          left
          exact ⟨s, u, t, err, rfl, hp, rfl, hd, by simp [constructor, hopt, hu, hp, ht, hd]⟩
        | ok d =>
          right
          cases hi : options "insecure" with
          | some b =>
            cases hb : ParseBool b with
            | error err =>
              left
              refine ⟨s, u, b, err, rfl, hp, ?_, rfl, hb, by simp [constructor, hopt, hu, hp, ht, hd, hi, hb]⟩
              intro t' ht'; cases ht'; exact ⟨d, hd⟩
            | ok v =>
              right
              refine ⟨s, u, _, rfl, hp, ?_, ?_, by simp [constructor, hopt, hu, hp, ht, hd, hi, hb]; rfl⟩
              · intro t' ht'; cases ht'; exact ⟨d, hd⟩
              · intro b' hb'; cases hb'; exact ⟨v, hb⟩
          | none =>
            right
            refine ⟨s, u, _, rfl, hp, ?_, ?_, by simp [constructor, hopt, hu, hp, ht, hd, hi]; rfl⟩
            · intro t' ht'; cases ht'; exact ⟨d, hd⟩
            · intro b' hb'; cases hb'
      | none =>
        right
        cases hi : options "insecure" with
        | some b =>
          cases hb : ParseBool b with
          | error err =>
            left
            refine ⟨s, u, b, err, rfl, hp, ?_, rfl, hb, by simp [constructor, hopt, hu, hp, ht, hi, hb]⟩
            intro t' ht'; cases ht'
          | ok v =>
            right
            refine ⟨s, u, _, rfl, hp, ?_, ?_, by simp [constructor, hopt, hu, hp, ht, hi, hb]; rfl⟩
            · intro t' ht'; cases ht'
            · intro b' hb'; cases hb'; exact ⟨v, hb⟩
        | none =>
          right
          refine ⟨s, u, _, rfl, hp, ?_, ?_, by simp [constructor, hopt, hu, hp, ht, hi]; rfl⟩
          · intro t' ht'; cases ht'
          · intro b' hb'; cases hb'

/-- The message for a missing `url` names the key. -/
theorem Names_url_required : Names "url is a required parameter" "url" :=
  ⟨[], " is a required parameter".data, by decide⟩

/-- The message `unable to parse <key> <value>: <err>` names the key and the
value. -/
theorem Names_unable (key s err : String) :
    Names ("unable to parse " ++ key ++ " " ++ s ++ ": " ++ err) key ∧
    Names ("unable to parse " ++ key ++ " " ++ s ++ ": " ++ err) s := by
  constructor
  · exact Names_append_right (Names_append_right (Names_append_right (Names_mid _ _ _) _) _) _
  · exact Names_append_right (Names_mid _ _ _) _

/-- C8: on the option mapping `backend.ParseOptions` produced, `constructor`
fails exactly when `url` is missing or one of `url`, `timeout`, `insecure` is
present with a value its parser rejects; the error for a missing `url` names
the key `url`; every other error names the key and the value of a rejected
option; in every other case a backend is returned. -/
theorem constructor_fails_iff (p : Parsers) (config : String) (options : Options)
    (hopt : p.ParseOptions config = .ok options) :
    ((∃ e, constructor p config = .error e) ↔
      (options "url" = none ∨ ∃ key s, Malformed p options key s)) ∧
    (options "url" = none →
      constructor p config = .error "url is a required parameter" ∧
      Names "url is a required parameter" "url") ∧
    (∀ e, constructor p config = .error e → options "url" ≠ none →
      ∃ key s, Malformed p options key s ∧ Names e key ∧ Names e s) ∧
    ((∃ g, constructor p config = .ok g) ↔
      ¬ (options "url" = none ∨ ∃ key s, Malformed p options key s)) := by
  rcases constructor_cases p config options hopt with
    ⟨hu, hr⟩ | ⟨s, err, hu, hp, hr⟩ | ⟨s, u, t, err, hu, hp, ht, hd, hr⟩ |
    ⟨s, u, b, err, hu, hp, hts, hi, hb, hr⟩ | ⟨s, u, g, hu, hp, hts, his, hr⟩
  · rw [hr]
    refine ⟨⟨fun _ => Or.inl hu, fun _ => ⟨_, rfl⟩⟩, fun _ => ⟨rfl, Names_url_required⟩,
      fun e _ hne => absurd hu hne, ⟨?_, fun h => absurd (Or.inl hu) h⟩⟩
    rintro ⟨g, hg⟩; cases hg
  · have hm : Malformed p options "url" s := ⟨hu, Or.inl ⟨rfl, err, hp⟩⟩
    rw [hr]
    refine ⟨⟨fun _ => Or.inr ⟨_, _, hm⟩, fun _ => ⟨_, rfl⟩⟩, ?_, ?_,
      ⟨?_, fun h => absurd (Or.inr ⟨_, _, hm⟩) h⟩⟩
    · intro h; rw [hu] at h; cases h
    · intro e he _
      cases he
      have hn := Names_unable "url" s err
      exact ⟨"url", s, hm, hn.1, hn.2⟩
    · rintro ⟨g, hg⟩; cases hg
  · have hm : Malformed p options "timeout" t := ⟨ht, Or.inr (Or.inl ⟨rfl, err, hd⟩)⟩
    rw [hr]
    refine ⟨⟨fun _ => Or.inr ⟨_, _, hm⟩, fun _ => ⟨_, rfl⟩⟩, ?_, ?_,
      ⟨?_, fun h => absurd (Or.inr ⟨_, _, hm⟩) h⟩⟩
    · intro h; rw [hu] at h; cases h
    · intro e he _
      cases he
      have hn := Names_unable "timeout" t err
      exact ⟨"timeout", t, hm, hn.1, hn.2⟩
    · rintro ⟨g, hg⟩; cases hg
  · have hm : Malformed p options "insecure" b := ⟨hi, Or.inr (Or.inr ⟨rfl, err, hb⟩)⟩
    rw [hr]
    refine ⟨⟨fun _ => Or.inr ⟨_, _, hm⟩, fun _ => ⟨_, rfl⟩⟩, ?_, ?_,
      ⟨?_, fun h => absurd (Or.inr ⟨_, _, hm⟩) h⟩⟩
    · intro h; rw [hu] at h; cases h
    · intro e he _
      cases he
      have hn := Names_unable "insecure" b err
      exact ⟨"insecure", b, hm, hn.1, hn.2⟩
    · rintro ⟨g, hg⟩; cases hg
  · have hno : ¬ (options "url" = none ∨ ∃ key s, Malformed p options key s) := by
      rintro (h | ⟨key, v, hv, hk | hk | hk⟩)
      · rw [hu] at h; cases h
      · obtain ⟨rfl, e, he⟩ := hk
        rw [hu] at hv; cases hv
        rw [hp] at he; cases he
      · obtain ⟨rfl, e, he⟩ := hk
        obtain ⟨d, hd⟩ := hts v hv
        rw [hd] at he; cases he
      · obtain ⟨rfl, e, he⟩ := hk
        obtain ⟨w, hw⟩ := his v hv
        rw [hw] at he; cases he
    rw [hr]
    refine ⟨⟨?_, fun h => absurd h hno⟩, fun h => absurd (Or.inl h) hno, ?_,
      ⟨fun _ => hno, fun _ => ⟨_, rfl⟩⟩⟩
    · rintro ⟨e, he⟩; cases he
    · intro e he; cases he

/-- C8 at the configuration `url=https://git.example.com/`: no option is
missing or malformed, so a backend is built. -/
theorem constructor_fails_iff_witness :
    exampleParsers.ParseOptions "url=https://git.example.com/" =
      .ok (fun key => if key = "url" then some "https://git.example.com/" else none) ∧
    ∃ g, constructor exampleParsers "url=https://git.example.com/" = .ok g := by
  have h := constructor_fails_iff exampleParsers "url=https://git.example.com/"
    (fun key => if key = "url" then some "https://git.example.com/" else none) rfl
  refine ⟨rfl, h.2.2.2.2 ?_⟩
  rintro (h0 | ⟨key, v, hv, hk | hk | hk⟩)
  · simp at h0
  · obtain ⟨rfl, e, he⟩ := hk
    simp at hv
    subst hv
    have : exampleParsers.urlParse "https://git.example.com/" =
        .ok { Scheme := "https", Host := "git.example.com", Path := "/" } := rfl
    rw [this] at he; cases he
  · obtain ⟨rfl, -⟩ := hk
    simp at hv
  · obtain ⟨rfl, -⟩ := hk
    simp at hv

/-! ## Properties of `Authenticate` -/

/-- The client `Authenticate` builds carries `noRedirectsPolicy`. -/
theorem buildClient_CheckRedirect (h : Gitlab) (repo : URL) :
    (buildClient h repo).CheckRedirect = some noRedirectsPolicy := by
  unfold buildClient
  split <;> rfl

/-- One call of `Do` on a client with `noRedirectsPolicy` makes one round trip
and ends there, whatever the answer. -/
theorem Do_noRedirects (net : Net) (fuel : Nat) (c : Client) (req : Request)
    (hc : c.CheckRedirect = some noRedirectsPolicy) :
    c.Do net (fuel + 1) req =
      match net.roundTrip c req with
      | .failure err => some (.failure (uerr req.Method req.URL.text err) none, [req])
      | .response status => some (.response status, [req])
      | .redirect status next =>
        some (.failure (uerr req.Method next.URL.text "follow redirects disabled")
          (some status), [req]) := by
  unfold Client.Do Client.doLoop
  cases net.roundTrip c req <;> simp [Client.checkRedirect, hc, noRedirectsPolicy]

/-- A call of `Authenticate` unfolded: without credentials, or with a subject
that does not resolve, it is a clean denial; with a request that cannot be
built, the error of `http.NewRequest`; otherwise one round trip decides. -/
theorem Authenticate_eq (net : Net) (fuel : Nat) (h : Gitlab) (r : InRequest) :
    Authenticate net (fuel + 1) h r =
      match r.BasicAuth with
      | none => some { authenticated := false, err := none, sent := [] }
      | some (un, pw) =>
        match h.url.Parse net (normalize un) with
        | .error _ => some { authenticated := false, err := none, sent := [] }
        | .ok repo =>
          match NewRequest net "GET" repo.text with
          | .error err => some { authenticated := false, err := some err, sent := [] }
          | .ok req =>
            some (outcomeOf (req.SetBasicAuth h.username pw)
              (net.roundTrip (buildClient h repo) (req.SetBasicAuth h.username pw))) := by
  unfold Authenticate
  cases r.BasicAuth with
  | none => rfl
  | some cred =>
    obtain ⟨un, pw⟩ := cred
    simp only
    cases h.url.Parse net (normalize un) with
    | error e => rfl
    | ok repo =>
      simp only
      cases NewRequest net "GET" repo.text with
      | error e => rfl
      | ok req =>
        simp only [Do_noRedirects net fuel _ _ (buildClient_CheckRedirect h repo)]
        cases net.roundTrip (buildClient h repo) (req.SetBasicAuth h.username pw) with
        | failure e => rfl
        | redirect st next => rfl
        | response st =>
          by_cases h200 : st = 200 <;> simp [outcomeOf, h200]

/-- C1: for a request with Basic-Auth credentials whose subject resolves,
`Authenticate` returns the error of `http.NewRequest` when the request cannot
be built; otherwise it returns `(true, nil)` exactly when the verification
target answers with a response of status 200, `(false, nil)` for a response of
any other status, and `(false, err)` with a non-nil `err` for a transport
failure.  No call of `Authenticate` returns true together with an error. -/
theorem Authenticate_status (net : Net) (fuel : Nat) (h : Gitlab) (r : InRequest)
    (un pw : String) (repo : URL)
    (hba : r.BasicAuth = some (un, pw))
    (hres : h.url.Parse net (normalize un) = .ok repo) :
    (∀ err, NewRequest net "GET" repo.text = .error err →
      Authenticate net (fuel + 1) h r =
        some { authenticated := false, err := some err, sent := [] }) ∧
    (∀ req, NewRequest net "GET" repo.text = .ok req →
      ((∃ o, Authenticate net (fuel + 1) h r = some o ∧ o.authenticated = true ∧ o.err = none) ↔
        net.roundTrip (buildClient h repo) (req.SetBasicAuth h.username pw) = .response 200) ∧
      (∀ status, status ≠ 200 →
        net.roundTrip (buildClient h repo) (req.SetBasicAuth h.username pw) = .response status →
        Authenticate net (fuel + 1) h r =
          some { authenticated := false, err := none,
                 sent := [req.SetBasicAuth h.username pw] }) ∧
      (∀ e, net.roundTrip (buildClient h repo) (req.SetBasicAuth h.username pw) = .failure e →
        ∃ err, Authenticate net (fuel + 1) h r =
          some { authenticated := false, err := some err,
                 sent := [req.SetBasicAuth h.username pw] })) ∧
    (∀ (n : Nat) (h' : Gitlab) (r' : InRequest) (o : Outcome),
      Authenticate net n h' r' = some o → o.authenticated = true → o.err = none) := by
  refine ⟨?_, ?_, ?_⟩
  · intro err herr
    rw [Authenticate_eq, hba]
    simp only [hres, herr]
  · intro req hreq
    have hA : Authenticate net (fuel + 1) h r =
        some (outcomeOf (req.SetBasicAuth h.username pw)
          (net.roundTrip (buildClient h repo) (req.SetBasicAuth h.username pw))) := by
      rw [Authenticate_eq, hba]
      simp only [hres, hreq]
    rw [hA]
    refine ⟨⟨?_, ?_⟩, ?_, ?_⟩
    · rintro ⟨o, ho, hauth, -⟩
      cases ho
      cases hrt : net.roundTrip (buildClient h repo) (req.SetBasicAuth h.username pw) with
      | failure e => rw [hrt] at hauth; simp [outcomeOf] at hauth
      | redirect st next => rw [hrt] at hauth; simp [outcomeOf] at hauth
      | response st =>
        rw [hrt] at hauth
        simp [outcomeOf] at hauth
        rw [hauth]
    · intro hrt
      rw [hrt]
      exact ⟨_, rfl, rfl, rfl⟩
    · intro st hst hrt
      rw [hrt]
      simp [outcomeOf, hst]
    · intro e hrt
      rw [hrt]
      exact ⟨_, rfl⟩
  · intro n h' r' o ho hauth
    cases n with
    | zero =>
      unfold Authenticate at ho
      cases hb : r'.BasicAuth with
      | none => rw [hb] at ho; simp at ho; subst ho; simp at hauth
      | some cred =>
        obtain ⟨un', pw'⟩ := cred
        rw [hb] at ho
        simp only at ho
        cases hp : h'.url.Parse net (normalize un') with
        | error e => rw [hp] at ho; simp at ho; subst ho; simp at hauth
        | ok repo' =>
          rw [hp] at ho
          simp only at ho
          cases hn : NewRequest net "GET" repo'.text with
          | error e => rw [hn] at ho; simp at ho; subst ho; simp at hauth
          | ok req' =>
            rw [hn] at ho
            simp [Client.Do, Client.doLoop] at ho
    | succ m =>
      rw [Authenticate_eq] at ho
      cases hb : r'.BasicAuth with
      | none => rw [hb] at ho; simp at ho; subst ho; simp at hauth
      | some cred =>
        obtain ⟨un', pw'⟩ := cred
        rw [hb] at ho
        simp only at ho
        cases hp : h'.url.Parse net (normalize un') with
        | error e => rw [hp] at ho; simp at ho; subst ho; simp at hauth
        | ok repo' =>
          rw [hp] at ho
          simp only at ho
          cases hn : NewRequest net "GET" repo'.text with
          | error e => rw [hn] at ho; simp at ho; subst ho; simp at hauth
          | ok req' =>
            rw [hn] at ho
            simp only [Option.some.injEq] at ho
            subst ho
            cases hrt : net.roundTrip (buildClient h' repo')
                (req'.SetBasicAuth h'.username pw') with
            | failure e => rw [hrt] at hauth; simp [outcomeOf] at hauth
            | redirect st next => rw [hrt] at hauth; simp [outcomeOf] at hauth
            | response st => rfl

/-- C1 at base `https://git.example.com/`, subject `team/proj` and secret
`abc123`: the target answers 200 and the result is `(true, nil)`. -/
theorem Authenticate_status_witness :
    (InRequest.mk (some ("team/proj", "abc123"))).BasicAuth = some ("team/proj", "abc123") ∧
    exampleGitlab.url.Parse exampleNet (normalize "team/proj") =
      .ok { Scheme := "https", Host := "git.example.com", Path := "/team/proj.git" } ∧
    ∃ o, Authenticate exampleNet 1 exampleGitlab ⟨some ("team/proj", "abc123")⟩ = some o ∧
      o.authenticated = true ∧ o.err = none :=
  ⟨rfl, rfl,
    ((Authenticate_status exampleNet 0 exampleGitlab ⟨some ("team/proj", "abc123")⟩
      "team/proj" "abc123"
      { Scheme := "https", Host := "git.example.com", Path := "/team/proj.git" }
      rfl rfl).2.1
      { Method := "GET",
        URL := { Scheme := "https", Host := "git.example.com", Path := "/team/proj.git" } }
      rfl).1.2 rfl⟩

/-- C2: a request without (parseable) Basic-Auth credentials is denied cleanly,
`(false, nil)`, and nothing is sent: the result is the same for every network
and every fuel, and its list of outbound requests is empty. -/
theorem Authenticate_no_credentials (net : Net) (fuel : Nat) (h : Gitlab) (r : InRequest)
    (hba : r.BasicAuth = none) :
    Authenticate net fuel h r = some { authenticated := false, err := none, sent := [] } := by
  unfold Authenticate
  rw [hba]

/-- C2 at a request without credentials, on the example network. -/
theorem Authenticate_no_credentials_witness :
    (InRequest.mk none).BasicAuth = none ∧
    Authenticate exampleNet 0 exampleGitlab ⟨none⟩ =
      some { authenticated := false, err := none, sent := [] } :=
  ⟨rfl, Authenticate_no_credentials exampleNet 0 exampleGitlab ⟨none⟩ rfl⟩

/-- C5: every outbound request of a call of `Authenticate` is a GET whose
Basic-Auth credentials are the configured username of the backend and the
inbound secret; when the call reaches the outbound call, exactly that request
is sent; two requests with the same secret and different subjects send the
same credentials. -/
theorem Authenticate_outbound_credentials (net : Net) (fuel : Nat) (h : Gitlab)
    (r : InRequest) (un pw : String) (o : Outcome)
    (hba : r.BasicAuth = some (un, pw))
    (hrun : Authenticate net (fuel + 1) h r = some o) :
    (∀ q ∈ o.sent, q.Method = "GET" ∧ q.BasicAuth = some (h.username, pw)) ∧
    (∀ repo req, h.url.Parse net (normalize un) = .ok repo →
      NewRequest net "GET" repo.text = .ok req →
      o.sent = [req.SetBasicAuth h.username pw]) ∧
    (∀ (r' : InRequest) (un' : String) (o' : Outcome),
      r'.BasicAuth = some (un', pw) → Authenticate net (fuel + 1) h r' = some o' →
      ∀ q ∈ o.sent, ∀ q' ∈ o'.sent, q.BasicAuth = q'.BasicAuth) := by
  have key : ∀ (r : InRequest) (un : String) (o : Outcome),
      r.BasicAuth = some (un, pw) → Authenticate net (fuel + 1) h r = some o →
      (∀ q ∈ o.sent, q.Method = "GET" ∧ q.BasicAuth = some (h.username, pw)) ∧
      (∀ repo req, h.url.Parse net (normalize un) = .ok repo →
        NewRequest net "GET" repo.text = .ok req →
        o.sent = [req.SetBasicAuth h.username pw]) := by
    intro r un o hba hrun
    rw [Authenticate_eq, hba] at hrun
    simp only at hrun
    cases hp : h.url.Parse net (normalize un) with
    | error e =>
      rw [hp] at hrun
      simp at hrun; subst hrun
      simp
    | ok repo =>
      rw [hp] at hrun
      simp only at hrun
      cases hn : NewRequest net "GET" repo.text with
      | error e =>
        rw [hn] at hrun
        simp at hrun; subst hrun
        refine ⟨by simp, ?_⟩
        intro repo' req' hrepo hreq
        cases hrepo
        rw [hn] at hreq; cases hreq
      | ok req =>
        rw [hn] at hrun
        simp only [Option.some.injEq] at hrun
        subst hrun
        have hm : req.Method = "GET" := by
          unfold NewRequest at hn
          cases hu : net.urlParse repo.text with
          | error e => rw [hu] at hn; cases hn
          | ok u => rw [hu] at hn; cases hn; rfl
        have hsent : ∀ a, (outcomeOf (req.SetBasicAuth h.username pw) a).sent =
            [req.SetBasicAuth h.username pw] := by
          intro a; cases a <;> rfl
        refine ⟨?_, ?_⟩
        · intro q hq
          rw [hsent] at hq
          simp at hq
          subst hq
          exact ⟨hm, rfl⟩
        · intro repo' req' hrepo hreq
          cases hrepo
          rw [hn] at hreq
          cases hreq
          exact hsent _
  refine ⟨(key r un o hba hrun).1, (key r un o hba hrun).2, ?_⟩
  intro r' un' o' hba' hrun' q hq q' hq'
  rw [((key r un o hba hrun).1 q hq).2, ((key r' un' o' hba' hrun').1 q' hq').2]

/-- C5 at subject `team/proj` and secret `abc123`: the request sent carries
`gitlab-ci-token` and `abc123`. -/
theorem Authenticate_outbound_credentials_witness :
    (InRequest.mk (some ("team/proj", "abc123"))).BasicAuth = some ("team/proj", "abc123") ∧
    Authenticate exampleNet 1 exampleGitlab ⟨some ("team/proj", "abc123")⟩ =
      some { authenticated := true, err := none,
             sent := [{ Method := "GET",
                        URL := { Scheme := "https", Host := "git.example.com",
                                 Path := "/team/proj.git" },
                        BasicAuth := some ("gitlab-ci-token", "abc123") }] } ∧
    ∀ q ∈ [({ Method := "GET",
              URL := { Scheme := "https", Host := "git.example.com",
                       Path := "/team/proj.git" },
              BasicAuth := some ("gitlab-ci-token", "abc123") } : Request)],
      q.Method = "GET" ∧ q.BasicAuth = some (exampleGitlab.username, "abc123") :=
  ⟨rfl, rfl,
    (Authenticate_outbound_credentials exampleNet 0 exampleGitlab
      ⟨some ("team/proj", "abc123")⟩ "team/proj" "abc123" _ rfl rfl).1⟩

/-- C6: when the verification target answers the GET with a redirect,
`Authenticate` returns false with a non-nil error (never true, never a clean
denial) and the next hop is not requested: the only request sent is the GET.
The client it builds carries `noRedirectsPolicy`, which returns a non-nil error
for every request and every list of earlier requests. -/
theorem Authenticate_redirect (net : Net) (fuel : Nat) (h : Gitlab) (r : InRequest)
    (un pw : String) (repo : URL) (req : Request) (status : Nat) (next : Request)
    (hba : r.BasicAuth = some (un, pw))
    (hres : h.url.Parse net (normalize un) = .ok repo)
    (hreq : NewRequest net "GET" repo.text = .ok req)
    (hredirect : net.roundTrip (buildClient h repo) (req.SetBasicAuth h.username pw) =
      .redirect status next) :
    Authenticate net (fuel + 1) h r =
      some { authenticated := false,
             err := some (uerr "GET" next.URL.text "follow redirects disabled"),
             sent := [req.SetBasicAuth h.username pw] } ∧
    (buildClient h repo).CheckRedirect = some noRedirectsPolicy ∧
    (∀ (q : Request) (via : List Request), noRedirectsPolicy q via ≠ none) := by
  have hm : req.Method = "GET" := by
    unfold NewRequest at hreq
    cases hu : net.urlParse repo.text with
    | error e => rw [hu] at hreq; cases hreq
    | ok u => rw [hu] at hreq; cases hreq; rfl
  refine ⟨?_, buildClient_CheckRedirect h repo, ?_⟩
  · rw [Authenticate_eq, hba]
    simp only [hres, hreq, hredirect, outcomeOf]
    simp [Request.SetBasicAuth, hm]
  · intro q via
    simp [noRedirectsPolicy]

/-- C6 at subject `moved`, which the example host answers with a 302: the
result is an error and `/elsewhere.git` is never requested. -/
theorem Authenticate_redirect_witness :
    (InRequest.mk (some ("moved", "abc123"))).BasicAuth = some ("moved", "abc123") ∧
    exampleGitlab.url.Parse exampleNet (normalize "moved") =
      .ok { Scheme := "https", Host := "git.example.com", Path := "/moved.git" } ∧
    Authenticate exampleNet 1 exampleGitlab ⟨some ("moved", "abc123")⟩ =
      some { authenticated := false,
             err := some "Get \"https://git.example.com/elsewhere.git\": follow redirects disabled",
             sent := [{ Method := "GET",
                        URL := { Scheme := "https", Host := "git.example.com",
                                 Path := "/moved.git" },
                        BasicAuth := some ("gitlab-ci-token", "abc123") }] } :=
  ⟨rfl, rfl,
    (Authenticate_redirect exampleNet 0 exampleGitlab ⟨some ("moved", "abc123")⟩
      "moved" "abc123"
      { Scheme := "https", Host := "git.example.com", Path := "/moved.git" }
      { Method := "GET",
        URL := { Scheme := "https", Host := "git.example.com", Path := "/moved.git" } }
      302
      { Method := "GET",
        URL := { Scheme := "https", Host := "git.example.com", Path := "/elsewhere.git" },
        BasicAuth := some ("gitlab-ci-token", "abc123") }
      rfl rfl rfl rfl).1⟩

/-- C7: the client `Authenticate` builds for the target `repo` skips the
validation of the certificate exactly when the scheme of `repo` is `https` and
`insecureSkipVerify` is set; for a target with another scheme, changing
`insecureSkipVerify` changes neither the client nor, for a request whose target
has such a scheme, the result of `Authenticate` on the same network. -/
theorem buildClient_skipsVerify_iff (h : Gitlab) (repo : URL) :
    ((buildClient h repo).skipsVerify = true ↔
      (repo.Scheme = "https" ∧ h.insecureSkipVerify = true)) ∧
    (∀ b : Bool, repo.Scheme ≠ "https" →
      buildClient { h with insecureSkipVerify := b } repo = buildClient h repo) ∧
    (∀ (b : Bool) (net : Net) (fuel : Nat) (r : InRequest),
      (∀ un pw target, r.BasicAuth = some (un, pw) →
        h.url.Parse net (normalize un) = .ok target → target.Scheme ≠ "https") →
      Authenticate net fuel { h with insecureSkipVerify := b } r = Authenticate net fuel h r) := by
  have hsame : ∀ (b : Bool) (target : URL), target.Scheme ≠ "https" →
      buildClient { h with insecureSkipVerify := b } target = buildClient h target := by
    intro b target hs
    simp [buildClient, hs]
  refine ⟨?_, fun b hs => hsame b repo hs, ?_⟩
  · unfold buildClient
    by_cases hc : repo.Scheme = "https" ∧ h.insecureSkipVerify = true
    · simp [hc, Client.skipsVerify]
    · simp only [hc, if_false, Client.skipsVerify]
      simp
  · intro b net fuel r hscheme
    unfold Authenticate
    cases hb : r.BasicAuth with
    | none => rfl
    | some cred =>
      obtain ⟨un, pw⟩ := cred
      simp only
      cases hp : h.url.Parse net (normalize un) with
      | error e => rfl
      | ok target =>
        simp only
        rw [hsame b target (hscheme un pw target hb hp)]

/-- C7 at a backend with a plain `http` base: with `insecureSkipVerify` set,
the client built for the target does not skip validation, and the result of
`Authenticate` is the one of the backend without the flag. -/
theorem buildClient_skipsVerify_iff_witness :
    (buildClient { exampleGitlab with insecureSkipVerify := true }
      { Scheme := "http", Host := "git.example.com", Path := "/team/proj.git" }).skipsVerify
        = false ∧
    buildClient { exampleGitlab with insecureSkipVerify := true }
      { Scheme := "http", Host := "git.example.com", Path := "/team/proj.git" } =
    buildClient exampleGitlab
      { Scheme := "http", Host := "git.example.com", Path := "/team/proj.git" } :=
  ⟨rfl,
    (buildClient_skipsVerify_iff exampleGitlab
      { Scheme := "http", Host := "git.example.com", Path := "/team/proj.git" }).2.1 true
      (by decide)⟩

/-! ## Properties of `parseBlock` -/

/-- A rule the checks after the loop let through has a path and a backend. -/
theorem finishBlock_none {β : Type} (r0 r : Rule β) (h : finishBlock r0 = (r, none)) :
    r.path ≠ "" ∧ r.backends ≠ [] := by
  unfold finishBlock at h
  by_cases hp : r0.path = ""
  · simp [hp] at h
  · by_cases hb : r0.backends.length = 0
    · simp [hp, hb] at h
    · simp [hp, hb] at h
      subst h
      exact ⟨hp, fun hnil => hb (by simp [hnil])⟩

/-- A rule returned by the loop without an error has a path and a backend. -/
theorem parseBlockLoop_none {β : Type} (lookup : Lookup β) (block : List Directive) :
    ∀ r0 r : Rule β, parseBlockLoop lookup block r0 = (r, none) →
      r.path ≠ "" ∧ r.backends ≠ [] := by
  induction block with
  | nil => intro r0 r h; exact finishBlock_none r0 r h
  | cons d block ih =>
    intro r0 r h
    unfold parseBlockLoop at h
    simp only [Controller.enter, Controller.Val, Controller.NextArg,
      Controller.RemainingArgs] at h
    split at h
    · -- path
      split at h
      · simp at h
      · split at h
        · simp at h
        · split at h
          · simp at h
          · exact ih _ _ h
    · split at h
      · -- except
        split at h
        · simp at h
        · split at h
          · simp at h
          · exact ih _ _ h
      · -- a backend
        split at h
        · split at h
          · simp at h
          · split at h
            · simp at h
            · exact ih _ _ h
        · simp at h

/-- Without a `path` directive the loop ends in an error. -/
theorem parseBlockLoop_no_path {β : Type} (lookup : Lookup β) (block : List Directive) :
    ∀ r0 : Rule β, r0.path = "" → (∀ d ∈ block, d.name ≠ "path") →
      (parseBlockLoop lookup block r0).2 ≠ none := by
  induction block with
  | nil =>
    intro r0 hp _
    simp [parseBlockLoop, finishBlock, hp]
  | cons d block ih =>
    intro r0 hp hd
    have hname : d.name ≠ "path" := hd d (List.mem_cons_self _ _)
    have hrest : ∀ d' ∈ block, d'.name ≠ "path" :=
      fun d' hd' => hd d' (List.mem_cons_of_mem _ hd')
    unfold parseBlockLoop
    simp only [Controller.enter, Controller.Val, Controller.NextArg,
      Controller.RemainingArgs, hname, if_false]
    split
    · -- except
      split
      · simp
      · split
        · simp
        · exact ih _ hp hrest
    · -- a backend
      split
      · split
        · simp
        · split
          · simp
          · exact ih _ hp hrest
      · simp

/-- Without a backend directive the loop ends in an error. -/
theorem parseBlockLoop_no_backend {β : Type} (lookup : Lookup β) (block : List Directive) :
    ∀ r0 : Rule β, r0.backends = [] →
      (∀ d ∈ block, d.name = "path" ∨ d.name = "except") →
      (parseBlockLoop lookup block r0).2 ≠ none := by
  induction block with
  | nil =>
    intro r0 hb _
    unfold parseBlockLoop finishBlock
    by_cases hp : r0.path = "" <;> simp [hp, hb]
  | cons d block ih =>
    intro r0 hb hd
    have hname : d.name = "path" ∨ d.name = "except" := hd d (List.mem_cons_self _ _)
    have hrest : ∀ d' ∈ block, d'.name = "path" ∨ d'.name = "except" :=
      fun d' hd' => hd d' (List.mem_cons_of_mem _ hd')
    unfold parseBlockLoop
    simp only [Controller.enter, Controller.Val, Controller.NextArg,
      Controller.RemainingArgs]
    split
    · -- path
      split
      · simp
      · split
        · simp
        · split
          · simp
          · exact ih _ hb hrest
    · rename_i hnp
      have hex : d.name = "except" := hname.resolve_left hnp
      simp only [hex, if_true]
      split
      · simp
      · split
        · simp
        · exact ih _ hb hrest

/-- C9: a rule `parseBlock` returns with a nil error has a non-empty path and
at least one backend; a block without a `path` directive is rejected with an
error, and so is a block without a backend directive (one made of `path` and
`except` directives only). -/
theorem parseBlock_rule_invariant {β : Type} (lookup : Lookup β) (block : List Directive) :
    (∀ r : Rule β, parseBlock lookup block = (r, none) →
      r.path ≠ "" ∧ 1 ≤ r.backends.length) ∧
    ((∀ d ∈ block, d.name ≠ "path") → (parseBlock lookup block).2 ≠ none) ∧
    ((∀ d ∈ block, d.name = "path" ∨ d.name = "except") →
      (parseBlock lookup block).2 ≠ none) := by
  refine ⟨?_, ?_, ?_⟩
  · intro r h
    have := parseBlockLoop_none lookup block _ r h
    refine ⟨this.1, ?_⟩
    cases hb : r.backends with
    | nil => exact absurd hb this.2
    | cons b bs => simp
  · exact parseBlockLoop_no_path lookup block _ rfl
  · exact parseBlockLoop_no_backend lookup block _ rfl

/-- C9 at the block `path /a`, `basic users`: it is accepted, so the rule has a
path and a backend. -/
theorem parseBlock_rule_invariant_witness :
    parseBlock exampleLookup [⟨"path", ["/a"]⟩, ⟨"basic", ["users"]⟩] =
      ({ path := "/a", exceptions := [], backends := ["users"] }, none) ∧
    (("/a" : String) ≠ "" ∧ 1 ≤ ["users"].length) :=
  ⟨rfl,
    (parseBlock_rule_invariant exampleLookup [⟨"path", ["/a"]⟩, ⟨"basic", ["users"]⟩]).1
      { path := "/a", exceptions := [], backends := ["users"] } rfl⟩

/-- A `path` or `except` directive without exactly one argument makes the loop
end in an error. -/
theorem parseBlockLoop_bad_arity {β : Type} (lookup : Lookup β) (block : List Directive) :
    ∀ r0 : Rule β,
      (∃ d ∈ block, (d.name = "path" ∨ d.name = "except") ∧ d.args.length ≠ 1) →
      (parseBlockLoop lookup block r0).2 ≠ none := by
  induction block with
  | nil => intro r0 h; obtain ⟨d, hd, -⟩ := h; cases hd
  | cons d block ih =>
    intro r0 h
    have hrest : (¬ ((d.name = "path" ∨ d.name = "except") ∧ d.args.length ≠ 1)) →
        ∃ d' ∈ block, (d'.name = "path" ∨ d'.name = "except") ∧ d'.args.length ≠ 1 := by
      intro hnot
      obtain ⟨d', hd', hbad⟩ := h
      rcases List.mem_cons.mp hd' with rfl | hmem
      · exact absurd hbad hnot
      · exact ⟨d', hmem, hbad⟩
    obtain ⟨name, args⟩ := d
    by_cases hp : name = "path"
    · subst hp
      rcases args with _ | ⟨a, _ | ⟨a', as⟩⟩
      · simp [parseBlockLoop, Controller.enter, Controller.Val, Controller.NextArg]
      · by_cases hr : r0.path.length = 0
        · simp only [parseBlockLoop, Controller.enter, Controller.Val, Controller.NextArg]
          simp only [hr, if_true, ne_eq, not_true_eq_false, if_false]
          exact ih _ (hrest (by simp))
        · simp [parseBlockLoop, Controller.enter, Controller.Val, Controller.NextArg, hr]
      · by_cases hr : r0.path.length = 0
        · simp [parseBlockLoop, Controller.enter, Controller.Val, Controller.NextArg, hr]
        · simp [parseBlockLoop, Controller.enter, Controller.Val, Controller.NextArg, hr]
    · by_cases he : name = "except"
      · subst he
        rcases args with _ | ⟨a, _ | ⟨a', as⟩⟩
        · simp [parseBlockLoop, Controller.enter, Controller.Val, Controller.NextArg]
        · simp only [parseBlockLoop, Controller.enter, Controller.Val, Controller.NextArg]
          simp only [hp, if_false, if_true]
          exact ih _ (hrest (by simp))
        · simp [parseBlockLoop, Controller.enter, Controller.Val, Controller.NextArg]
      · have hnot : ¬ (((Directive.mk name args).name = "path" ∨
            (Directive.mk name args).name = "except") ∧
            (Directive.mk name args).args.length ≠ 1) := by
          rintro ⟨hn | hn, -⟩
          · exact hp hn
          · exact he hn
        simp only [parseBlockLoop, Controller.enter, Controller.Val,
          Controller.RemainingArgs, hp, he, if_false]
        split
        · split
          · simp
          · split
            · simp
            · exact ih _ (hrest hnot)
        · simp

/-- A Go string has length zero exactly when it is the empty string. -/
theorem length_eq_zero_iff (s : String) : s.length = 0 ↔ s = "" := by
  obtain ⟨data⟩ := s
  constructor
  · intro h
    have hd : data = [] := List.length_eq_zero.mp h
    subst hd
    rfl
  · intro h
    rw [h]
    rfl

/-- On success, the exceptions of the rule are those it started with followed
by the arguments of the `except` directives, in order. -/
theorem parseBlockLoop_exceptions {β : Type} (lookup : Lookup β) (block : List Directive) :
    ∀ r0 r : Rule β, parseBlockLoop lookup block r0 = (r, none) →
      r.exceptions = r0.exceptions ++ exceptArgs block := by
  induction block with
  | nil =>
    intro r0 r h
    unfold parseBlockLoop finishBlock at h
    by_cases hp : r0.path = ""
    · simp [hp] at h
    · by_cases hb : r0.backends.length = 0
      · simp [hp, hb] at h
      · simp [hp, hb] at h
        subst h
        simp [exceptArgs]
  | cons d block ih =>
    intro r0 r h
    obtain ⟨name, args⟩ := d
    by_cases hp : name = "path"
    · subst hp
      rcases args with _ | ⟨a, _ | ⟨a', as⟩⟩
      · simp [parseBlockLoop, Controller.enter, Controller.Val, Controller.NextArg] at h
      · by_cases hr : r0.path.length = 0
        · simp only [parseBlockLoop, Controller.enter, Controller.Val, Controller.NextArg] at h
          simp only [hr, if_true, ne_eq, not_true_eq_false, if_false] at h
          have := ih _ r h
          simpa [exceptArgs] using this
        · simp [parseBlockLoop, Controller.enter, Controller.Val, Controller.NextArg, hr] at h
      · by_cases hr : r0.path.length = 0
        · simp [parseBlockLoop, Controller.enter, Controller.Val, Controller.NextArg, hr] at h
        · simp [parseBlockLoop, Controller.enter, Controller.Val, Controller.NextArg, hr] at h
    · by_cases he : name = "except"
      · subst he
        rcases args with _ | ⟨a, _ | ⟨a', as⟩⟩
        · simp [parseBlockLoop, Controller.enter, Controller.Val, Controller.NextArg] at h
        · simp only [parseBlockLoop, Controller.enter, Controller.Val, Controller.NextArg] at h
          simp only [hp, if_false, if_true] at h
          have := ih _ r h
          simpa [exceptArgs] using this
        · simp [parseBlockLoop, Controller.enter, Controller.Val, Controller.NextArg] at h
      · simp only [parseBlockLoop, Controller.enter, Controller.Val,
          Controller.RemainingArgs, hp, he, if_false] at h
        split at h
        · split at h
          · simp at h
          · split at h
            · simp at h
            · have := ih _ r h
              simpa [exceptArgs, he] using this
        · simp at h

/-- Once the rule has a non-empty path, a later `path` directive makes the loop
end in an error. -/
theorem parseBlockLoop_path_again {β : Type} (lookup : Lookup β) (block : List Directive) :
    ∀ r0 : Rule β, r0.path ≠ "" → (∃ d ∈ block, d.name = "path") →
      (parseBlockLoop lookup block r0).2 ≠ none := by
  induction block with
  | nil => intro r0 _ h; obtain ⟨d, hd, -⟩ := h; cases hd
  | cons d block ih =>
    intro r0 hpath h
    have hlen : r0.path.length ≠ 0 := fun hz => hpath ((length_eq_zero_iff _).mp hz)
    obtain ⟨name, args⟩ := d
    by_cases hp : name = "path"
    · subst hp
      rcases args with _ | ⟨a, as⟩
      · simp [parseBlockLoop, Controller.enter, Controller.Val, Controller.NextArg]
      · simp [parseBlockLoop, Controller.enter, Controller.Val, Controller.NextArg, hlen]
    · have hrest : ∃ d' ∈ block, d'.name = "path" := by
        obtain ⟨d', hd', hn⟩ := h
        rcases List.mem_cons.mp hd' with rfl | hmem
        · exact absurd hn hp
        · exact ⟨d', hmem, hn⟩
      by_cases he : name = "except"
      · subst he
        rcases args with _ | ⟨a, _ | ⟨a', as⟩⟩
        · simp [parseBlockLoop, Controller.enter, Controller.Val, Controller.NextArg]
        · simp only [parseBlockLoop, Controller.enter, Controller.Val, Controller.NextArg]
          simp only [hp, if_false, if_true]
          exact ih _ hpath hrest
        · simp [parseBlockLoop, Controller.enter, Controller.Val, Controller.NextArg]
      · simp only [parseBlockLoop, Controller.enter, Controller.Val,
          Controller.RemainingArgs, hp, he, if_false]
        split
        · split
          · simp
          · split
            · simp
            · exact ih _ hpath hrest
        · simp

/-- A `path` directive with a non-empty argument followed, anywhere later in
the block, by another `path` directive makes the loop end in an error. -/
theorem parseBlockLoop_second_path {β : Type} (lookup : Lookup β)
    (a : String) (rest : List Directive) (ha : a ≠ "") (hrest : ∃ d ∈ rest, d.name = "path")
    (pre : List Directive) :
    ∀ r0 : Rule β,
      (parseBlockLoop lookup (pre ++ Directive.mk "path" [a] :: rest) r0).2 ≠ none := by
  induction pre with
  | nil =>
    intro r0
    by_cases hr : r0.path.length = 0
    · simp only [List.nil_append, parseBlockLoop, Controller.enter, Controller.Val,
        Controller.NextArg]
      simp only [hr, if_true, ne_eq, not_true_eq_false, if_false]
      exact parseBlockLoop_path_again lookup rest _ ha hrest
    · simp [parseBlockLoop, Controller.enter, Controller.Val, Controller.NextArg, hr]
  | cons d pre ih =>
    intro r0
    obtain ⟨name, args⟩ := d
    by_cases hp : name = "path"
    · subst hp
      rcases args with _ | ⟨b, _ | ⟨b', bs⟩⟩
      · simp [parseBlockLoop, Controller.enter, Controller.Val, Controller.NextArg]
      · by_cases hr : r0.path.length = 0
        · simp only [List.cons_append, parseBlockLoop, Controller.enter, Controller.Val,
            Controller.NextArg]
          simp only [hr, if_true, ne_eq, not_true_eq_false, if_false]
          exact ih _
        · simp [parseBlockLoop, Controller.enter, Controller.Val, Controller.NextArg, hr]
      · by_cases hr : r0.path.length = 0
        · simp [parseBlockLoop, Controller.enter, Controller.Val, Controller.NextArg, hr]
        · simp [parseBlockLoop, Controller.enter, Controller.Val, Controller.NextArg, hr]
    · by_cases he : name = "except"
      · subst he
        rcases args with _ | ⟨b, _ | ⟨b', bs⟩⟩
        · simp [parseBlockLoop, Controller.enter, Controller.Val, Controller.NextArg]
        · simp only [List.cons_append, parseBlockLoop, Controller.enter, Controller.Val,
            Controller.NextArg]
          simp only [hp, if_false, if_true]
          exact ih _
        · simp [parseBlockLoop, Controller.enter, Controller.Val, Controller.NextArg]
      · simp only [List.cons_append, parseBlockLoop, Controller.enter, Controller.Val,
          Controller.RemainingArgs, hp, he, if_false]
        split
        · split
          · simp
          · split
            · simp
            · exact ih _
        · simp

/-- C10, at the block `path ""`, `path /a`, `basic users`: the block holds two
`path` directives and `parseBlock` accepts it, with the path of the second.
The test `len(r.path) != 0` that guards against a second `path` does not see a
first one whose argument is the empty string. -/
theorem parseBlock_accepts_second_path :
    parseBlock exampleLookup [⟨"path", [""]⟩, ⟨"path", ["/a"]⟩, ⟨"basic", ["users"]⟩] =
      ({ path := "/a", exceptions := [], backends := ["users"] }, none) := by
  decide

/-- X1: a block that holds a `path` or an `except` directive with no argument
or with more than one argument is rejected by `parseBlock` with an error. -/
theorem parseBlock_rejects_bad_arity {β : Type} (lookup : Lookup β) (block : List Directive)
    (h : ∃ d ∈ block, (d.name = "path" ∨ d.name = "except") ∧ d.args.length ≠ 1) :
    (parseBlock lookup block).2 ≠ none :=
  parseBlockLoop_bad_arity lookup block _ h

/-- X1 at the block `path /a /b`, `basic users`. -/
theorem parseBlock_rejects_bad_arity_witness :
    (parseBlock exampleLookup [⟨"path", ["/a", "/b"]⟩, ⟨"basic", ["users"]⟩]).2 ≠ none :=
  parseBlock_rejects_bad_arity exampleLookup [⟨"path", ["/a", "/b"]⟩, ⟨"basic", ["users"]⟩]
    ⟨⟨"path", ["/a", "/b"]⟩, by simp, by simp⟩

/-- X2: when `parseBlock` returns a rule with a nil error, the exceptions of the
rule are the arguments of the `except` directives of the block, in the order
they are written. -/
theorem parseBlock_exceptions_in_order {β : Type} (lookup : Lookup β)
    (block : List Directive) (r : Rule β) (h : parseBlock lookup block = (r, none)) :
    r.exceptions = exceptArgs block := by
  have := parseBlockLoop_exceptions lookup block _ r h
  simpa using this

/-- X2 at the block `path /a`, `except /a/x`, `basic users`, `except /a/y`. -/
theorem parseBlock_exceptions_in_order_witness :
    parseBlock exampleLookup
        [⟨"path", ["/a"]⟩, ⟨"except", ["/a/x"]⟩, ⟨"basic", ["users"]⟩, ⟨"except", ["/a/y"]⟩] =
      ({ path := "/a", exceptions := ["/a/x", "/a/y"], backends := ["users"] }, none) ∧
    ["/a/x", "/a/y"] = exceptArgs
        [⟨"path", ["/a"]⟩, ⟨"except", ["/a/x"]⟩, ⟨"basic", ["users"]⟩, ⟨"except", ["/a/y"]⟩] :=
  ⟨by decide,
    parseBlock_exceptions_in_order exampleLookup
      [⟨"path", ["/a"]⟩, ⟨"except", ["/a/x"]⟩, ⟨"basic", ["users"]⟩, ⟨"except", ["/a/y"]⟩]
      { path := "/a", exceptions := ["/a/x", "/a/y"], backends := ["users"] } (by decide)⟩

/-- X3: a block in which a `path` directive with a non-empty argument is
followed, anywhere later, by another `path` directive is rejected by
`parseBlock` with an error. -/
theorem parseBlock_rejects_second_path {β : Type} (lookup : Lookup β)
    (pre rest : List Directive) (a : String)
    (ha : a ≠ "") (hrest : ∃ d ∈ rest, d.name = "path") :
    (parseBlock lookup (pre ++ Directive.mk "path" [a] :: rest)).2 ≠ none :=
  parseBlockLoop_second_path lookup a rest ha hrest pre _

/-- X3 at the block `path /a`, `path /b`, `basic users`. -/
theorem parseBlock_rejects_second_path_witness :
    (parseBlock exampleLookup
      ([] ++ Directive.mk "path" ["/a"] :: [⟨"path", ["/b"]⟩, ⟨"basic", ["users"]⟩])).2 ≠ none :=
  parseBlock_rejects_second_path exampleLookup []
    [⟨"path", ["/b"]⟩, ⟨"basic", ["users"]⟩] "/a" (by decide) ⟨⟨"path", ["/b"]⟩, by simp, rfl⟩

/-! ## The target of the verification call -/

/-- The first part of a `strings.Cut` is a prefix of the string. -/
theorem Url.cut_prefix (sep : Char) (s : List Char) : (Url.cut sep s).1 <+: s := by
  induction s with
  | nil => simp [Url.cut]
  | cons c cs ih =>
    unfold Url.cut
    by_cases h : c = sep
    · simp [h]
    · simp only [h, if_false]
      exact (List.prefix_cons_inj c).mpr ih

/-- A string that starts with `//` has every longer string of which it is a
prefix start with `//` too. -/
theorem Url.take_two_of_prefix {p s : List Char} (hp : p <+: s)
    (h : p.take 2 = ['/', '/']) : s.take 2 = ['/', '/'] := by
  obtain ⟨t, rfl⟩ := hp
  rcases p with _ | ⟨a, _ | ⟨b, p⟩⟩
  · simp at h
  · simp at h
  · simpa using h

/-- Without a colon there is no scheme: `getScheme` returns the string whole. -/
theorem Url.getSchemeAux_no_colon (rawURL : List Char) (rest : List Char)
    (h : ':' ∉ rest) : ∀ i, Url.getSchemeAux rawURL i rest = .ok ([], rawURL) := by
  induction rest with
  | nil => intro i; rfl
  | cons c cs ih =>
    intro i
    have hc : c ≠ ':' := fun hc => h (by simp [hc])
    have hcs : ':' ∉ cs := fun hm => h (List.mem_cons_of_mem _ hm)
    unfold Url.getSchemeAux
    by_cases ha : c.isAlpha = true
    · simp [ha, ih hcs]
    · by_cases hd : (c.isDigit || c = '+' || c = '-' || c = '.') = true
      · by_cases hi : i = 0
        · simp [ha, hd, hi]
        · simp [ha, hd, hi, ih hcs]
      · simp [ha, hd, hc]

/-- What `parseRest` gives without a scheme for a rest that does not start
with `//`: no scheme, no opaque part, no host and no userinfo. -/
theorem Url.parseRest_relative (rest : List Char) (forceQuery : Bool) (rawQuery : List Char)
    (u : URL) (hslash : rest.take 2 ≠ ['/', '/'])
    (h : Url.parseRest [] rest forceQuery rawQuery = .ok u) :
    u.Scheme = "" ∧ u.Opaque = "" ∧ u.Host = "" ∧ u.User = none := by
  unfold Url.parseRest at h
  simp only [ne_eq, not_true_eq_false, and_false, if_false, false_or, hslash] at h
  split at h
  · cases h
  · split at h
    · cases h
    · cases h; exact ⟨rfl, rfl, rfl, rfl⟩

/-- What `parse` gives for a string without a colon that does not start with
`//`: no scheme, no opaque part, no host and no userinfo. -/
theorem Url.parse_relative (rawURL : List Char) (u : URL)
    (hcolon : ':' ∉ rawURL) (hslash : rawURL.take 2 ≠ ['/', '/'])
    (h : Url.parse rawURL = .ok u) :
    u.Scheme = "" ∧ u.Opaque = "" ∧ u.Host = "" ∧ u.User = none := by
  unfold Url.parse at h
  simp only [Url.getScheme, Url.getSchemeAux_no_colon rawURL rawURL hcolon 0] at h
  split at h
  · cases h
  · split at h
    · cases h; exact ⟨rfl, rfl, rfl, rfl⟩
    · simp only [List.map_nil] at h
      split at h
      · refine Url.parseRest_relative _ _ _ u ?_ h
        exact fun ht => hslash (Url.take_two_of_prefix (List.dropLast_prefix _) ht)
      · refine Url.parseRest_relative _ _ _ u ?_ h
        exact fun ht => hslash (Url.take_two_of_prefix (Url.cut_prefix _ _) ht)

/-- Setting the fragment apart, `Url.Parse` gives what `parse` gives for the
part before the first `#`. -/
theorem Url.Parse_ok (rawURL : String) (u : URL) (h : Url.Parse rawURL = .ok u) :
    ∃ u0, Url.parse (Url.cut '#' rawURL.data).1 = .ok u0 ∧
      u.Scheme = u0.Scheme ∧ u.Opaque = u0.Opaque ∧ u.Host = u0.Host ∧ u.User = u0.User := by
  unfold Url.Parse at h
  simp only at h
  cases hp : Url.parse (Url.cut '#' rawURL.data).1 with
  | error e => rw [hp] at h; cases h
  | ok u0 =>
    rw [hp] at h
    simp only at h
    refine ⟨u0, rfl, ?_⟩
    split at h
    · cases h; exact ⟨rfl, rfl, rfl, rfl⟩
    · split at h
      · cases h
      · cases h; exact ⟨rfl, rfl, rfl, rfl⟩

/-- A reference `parseRest` accepts has an opaque part or a host, not both. -/
theorem Url.parseRest_opaque_or_host (scheme rest : List Char) (forceQuery : Bool)
    (rawQuery : List Char) (u : URL)
    (h : Url.parseRest scheme rest forceQuery rawQuery = .ok u) :
    u.Opaque = "" ∨ u.Host = "" := by
  unfold Url.parseRest at h
  simp only at h
  split at h
  · cases h; exact Or.inr rfl
  · split at h
    · cases h
    · split at h
      · split at h
        · cases h
        · split at h
          · cases h
          · cases h; exact Or.inl rfl
      · split at h
        · cases h
        · cases h; exact Or.inl rfl

/-- A reference `Url.Parse` accepts has an opaque part or a host, not both. -/
theorem Url.Parse_opaque_or_host (rawURL : String) (u : URL)
    (h : Url.Parse rawURL = .ok u) : u.Opaque = "" ∨ u.Host = "" := by
  obtain ⟨u0, hp, -, ho, hh, -⟩ := Url.Parse_ok rawURL u h
  rw [ho, hh]
  unfold Url.parse at hp
  split at hp
  · cases hp
  · split at hp
    · cases hp; exact Or.inl rfl
    · split at hp
      · cases hp
      · simp only at hp
        split at hp
        · exact Url.parseRest_opaque_or_host _ _ _ _ _ hp
        · exact Url.parseRest_opaque_or_host _ _ _ _ _ hp

/-- A reference without scheme, opaque part, host and userinfo resolves to a
target with the scheme and the host of the base. -/
theorem ResolveReference_relative (u ref : URL)
    (hu : u.Opaque = "" ∨ u.Host = "")
    (hs : ref.Scheme = "") (ho : ref.Opaque = "") (hh : ref.Host = "") (hn : ref.User = none) :
    (u.ResolveReference ref).Scheme = u.Scheme ∧ (u.ResolveReference ref).Host = u.Host := by
  have hhost : (ref.Path = "" ∧ u.Opaque ≠ "") → u.Host = "" := fun h => hu.resolve_left h.2
  unfold URL.ResolveReference
  simp only [hs, ho, hh, hn, ne_eq, not_true_eq_false, or_self, if_true, if_false]
  split_ifs with h1 h2 h3 h4
  · exact ⟨rfl, (hhost h1).symm⟩
  · exact ⟨rfl, (hhost h1).symm⟩
  · exact ⟨rfl, (hhost h1).symm⟩
  · exact ⟨rfl, rfl⟩
  · exact ⟨rfl, rfl⟩
  · exact ⟨rfl, rfl⟩

/-- The normalised subject has a colon only when the subject has one. -/
theorem normalize_no_colon (un : String) (h : ':' ∉ un.data) : ':' ∉ (normalize un).data := by
  unfold normalize
  split
  · rw [String.data_append]
    intro hm
    rcases List.mem_append.mp hm with hm | hm
    · exact h hm
    · revert hm; decide
  · exact h

/-- X4: with `url.Parse` as modelled, for a base that `url.Parse` produced and a
subject without `:` whose normalised form does not start with `//`, the target
`Authenticate` resolves, when resolution succeeds, has the scheme and the host
of the base. -/
theorem Parse_target_on_base_host (net : Net) (config un : String) (base target : URL)
    (hnet : net.urlParse = Url.Parse)
    (hbase : Url.Parse config = .ok base)
    (hcolon : ':' ∉ un.data)
    (hslash : (normalize un).data.take 2 ≠ ['/', '/'])
    (hres : base.Parse net (normalize un) = .ok target) :
    target.Scheme = base.Scheme ∧ target.Host = base.Host := by
  unfold URL.Parse at hres
  rw [hnet] at hres
  cases hp : Url.Parse (normalize un) with
  | error e => rw [hp] at hres; cases hres
  | ok ref =>
    rw [hp] at hres
    cases hres
    obtain ⟨u0, hp0, hs, ho, hh, hu⟩ := Url.Parse_ok _ _ hp
    have hpre := Url.cut_prefix '#' (normalize un).data
    have hc0 : ':' ∉ (Url.cut '#' (normalize un).data).1 :=
      fun hm => normalize_no_colon un hcolon (hpre.subset hm)
    have hs0 : (Url.cut '#' (normalize un).data).1.take 2 ≠ ['/', '/'] :=
      fun ht => hslash (Url.take_two_of_prefix hpre ht)
    obtain ⟨h1, h2, h3, h4⟩ := Url.parse_relative _ u0 hc0 hs0 hp0
    exact ResolveReference_relative base ref (Url.Parse_opaque_or_host config base hbase)
      (hs.trans h1) (ho.trans h2) (hh.trans h3) (hu.trans h4)

/-- X4 at base `https://git.example.com/` and subject `team/proj`. -/
theorem Parse_target_on_base_host_witness :
    exampleNet.urlParse = Url.Parse ∧
    Url.Parse "https://git.example.com/" = .ok exampleGitlab.url ∧
    ':' ∉ ("team/proj" : String).data ∧
    (normalize "team/proj").data.take 2 ≠ ['/', '/'] ∧
    exampleGitlab.url.Parse exampleNet (normalize "team/proj") =
      .ok { Scheme := "https", Host := "git.example.com", Path := "/team/proj.git" } ∧
    (("https" : String) = exampleGitlab.url.Scheme ∧
      ("git.example.com" : String) = exampleGitlab.url.Host) :=
  ⟨rfl, rfl, by decide, by decide, rfl,
    Parse_target_on_base_host exampleNet "https://git.example.com/" "team/proj"
      exampleGitlab.url
      { Scheme := "https", Host := "git.example.com", Path := "/team/proj.git" }
      rfl rfl (by decide) (by decide) rfl⟩

/-- C3, evaluated on the backend with base `https://git.example.com/`.  The
subject `team/proj` is verified at `https://git.example.com/team/proj.git`.
The subject `//evil.example/x` is a network-path reference: it resolves to
`https://evil.example/x.git`, whose host is not the host of the base, the GET
with the caller's secret goes to that host, and its answer 200 makes
`Authenticate` return `(true, nil)`. -/
theorem Authenticate_subject_moves_host :
    (exampleGitlab.url.Parse exampleNet (normalize "team/proj")).toOption.map URL.text =
      some "https://git.example.com/team/proj.git" ∧
    (exampleGitlab.url.Parse exampleNet (normalize "//evil.example/x")).toOption =
      some { Scheme := "https", Host := "evil.example", Path := "/x.git" } ∧
    exampleGitlab.url.Host = "git.example.com" ∧
    Authenticate exampleNet 1 exampleGitlab ⟨some ("//evil.example/x", "anything")⟩ =
      some { authenticated := true, err := none,
             sent := [{ Method := "GET",
                        URL := { Scheme := "https", Host := "evil.example", Path := "/x.git" },
                        BasicAuth := some ("gitlab-ci-token", "anything") }] } ∧
    Authenticate exampleNet 1 exampleGitlab ⟨some ("team/proj", "anything")⟩ =
      some { authenticated := false, err := none,
             sent := [{ Method := "GET",
                        URL := { Scheme := "https", Host := "git.example.com",
                                 Path := "/team/proj.git" },
                        BasicAuth := some ("gitlab-ci-token", "anything") }] } := by
  refine ⟨?_, ?_, ?_, ?_, ?_⟩ <;> decide

end Reauth
